import Mathlib

/-
Verification of the cross-venue funding alignment and arbitrage simulation
core (scripts/analyze_cross_venue.py, scripts/analyze_hl_spot_hedge.py,
scripts/analyze_funding_profitability.py).

Modelling conventions:
  * timestamps are integers (seconds since the epoch); the Python code works
    with timezone-aware datetimes and timedelta.total_seconds();
  * monetary and rate quantities are exact rationals; the Python code uses
    IEEE floats, the spec states its one numeric identity up to a relative
    tolerance which we carry into the statements where it appears;
  * Python lists become Lean lists, iteration order is preserved;
  * dictionaries with default factories become total functions updated
    pointwise at one key.
-/

/-- Trade direction of a cross-venue spread event,
from align_and_calculate_spreads: the string constants
long_binance_short_hl (the B_over_A leg of the spec) and
long_hl_short_binance (A_over_B). -/
inductive Direction where
  | longBinanceShortHl
  | longHlShortBinance
  deriving DecidableEq, Repr

/-- One funding record as the aligner consumes it: (timestamp seconds, rate).
Mirrors the (datetime, float) pairs of hl_data[coin] and binance_data[coin]. -/
abbrev FundingRec := Int × ℚ

/-- A SpreadOpportunity from analyze_cross_venue.py. -/
structure SpreadOpportunity where
  timestamp : Int
  coin : String
  hl_rate_8h : ℚ
  binance_rate_8h : ℚ
  spread_8h : ℚ
  direction : Direction
  deriving DecidableEq, Repr

/-- The inner scan of align_and_calculate_spreads: the first HL record whose
timestamp is strictly within 30 minutes (1800 s) of the check time `t`
(first match wins, then the loop breaks). -/
def findHlMatch (hl : List FundingRec) (t : Int) : Option ℚ :=
  (hl.find? fun p => decide ((p.1 - t).natAbs < 1800)).map Prod.snd

/-- The hours_back = 0..7 accumulation of align_and_calculate_spreads:
for each of the 8 expected hourly sub-timestamps bts - 3600*h, add the first
matching HL rate; returns (hl_8h_equivalent, hl_count). -/
def hlWindow (hl : List FundingRec) (bts : Int) : ℚ × Nat :=
  (List.range 8).foldl
    (fun acc h =>
      match findHlMatch hl (bts - 3600 * (h : Int)) with
      | some r => (acc.1 + r, acc.2 + 1)
      | none => acc)
    (0, 0)

/-- Processing of one Binance record (bts, brate) for one coin inside
align_and_calculate_spreads: emit an opportunity unless hl_count < 4
(fewer than half of the 8 expected hourly sub-samples matched). -/
def processBinanceRecord (hl : List FundingRec) (coin : String) (rec : FundingRec) :
    Option SpreadOpportunity :=
  let s := hlWindow hl rec.1
  if s.2 < 4 then none
  else
    let spread := s.1 - rec.2
    some { timestamp := rec.1
           coin := coin
           hl_rate_8h := s.1
           binance_rate_8h := rec.2
           spread_8h := spread
           direction := if 0 < spread then Direction.longBinanceShortHl
                        else Direction.longHlShortBinance }

/-- The per-coin body of align_and_calculate_spreads: one pass over the
Binance records of a coin, appending the emitted opportunities in order.
The Python outer loop runs this for every coin present on both venues and
finally sorts the concatenation by timestamp. -/
def align_coin_spreads (hl : List FundingRec) (bn : List FundingRec) (coin : String) :
    List SpreadOpportunity :=
  bn.filterMap (processBinanceRecord hl coin)

/-! ## Cross-venue position lifecycle simulator (simulate_trading) -/

/-- One entry of the simulator's open-position list, the Python tuple
(coin, entry_time, entry_spread, direction). -/
structure OpenPosition where
  coin : String
  entry_time : Int
  entry_spread : ℚ
  direction : Direction
  deriving DecidableEq, Repr

/-- One entry of the simulator's trade log, the Python dict with keys
coin, entry, exit, gross, net. -/
structure ClosedTrade where
  coin : String
  entry : Int
  exitTime : Int
  gross : ℚ
  net : ℚ
  deriving DecidableEq, Repr

/-- The keyword parameters of simulate_trading in analyze_cross_venue.py. -/
structure SimConfig where
  capital : ℚ
  position_size_pct : ℚ
  max_positions : Int
  min_spread : ℚ
  hold_periods : Int
  entry_cost : ℚ
  exit_cost : ℚ
  deriving DecidableEq, Repr

/-- The mutable locals of simulate_trading. -/
structure SimState where
  equity : ℚ
  positions : List OpenPosition
  trades : List ClosedTrade
  equity_curve : List (Int × ℚ)
  deriving DecidableEq, Repr

/-- One iteration of the close loop of simulate_trading: if the position has
been held at least hold_periods funding periods (8 h each), realize the
P&L at the current running equity and append the trade; otherwise keep it. -/
def closeStep (cfg : SimConfig) (now : Int)
    (acc : ℚ × List OpenPosition × List ClosedTrade) (pos : OpenPosition) :
    ℚ × List OpenPosition × List ClosedTrade :=
  let eq := acc.1
  let periods_held : ℚ := ((now - pos.entry_time : Int) : ℚ) / (8 * 3600)
  if (cfg.hold_periods : ℚ) ≤ periods_held then
    let gross := |pos.entry_spread| * cfg.position_size_pct * eq
    let costs := 2 * cfg.exit_cost * cfg.position_size_pct * eq
    let net := gross - costs
    (eq + net, acc.2.1,
      acc.2.2 ++ [{ coin := pos.coin, entry := pos.entry_time, exitTime := now,
                    gross := gross, net := net }])
  else
    (eq, acc.2.1 ++ [pos], acc.2.2)

/-- The close phase of one event of simulate_trading: scan the open
positions in order, closing the mature ones at the running equity. -/
def closePhase (cfg : SimConfig) (now : Int) (st : SimState) : SimState :=
  let c := st.positions.foldl (closeStep cfg now) (st.equity, [], st.trades)
  { st with equity := c.1, positions := c.2.1, trades := c.2.2 }

/-- The entry condition of simulate_trading: spread at least min_spread,
a free slot under max_positions, and no open position on the coin. -/
abbrev openCond (cfg : SimConfig) (st : SimState) (opp : SpreadOpportunity) : Prop :=
  cfg.min_spread ≤ |opp.spread_8h| ∧
    (st.positions.length : Int) < cfg.max_positions ∧
    opp.coin ∉ st.positions.map OpenPosition.coin

/-- The open phase of one event of simulate_trading: open a position (paying
the two-leg entry cost out of equity immediately) when the entry condition
holds, then append (timestamp, equity) to the equity curve. -/
def openPhase (cfg : SimConfig) (st : SimState) (opp : SpreadOpportunity) : SimState :=
  if openCond cfg st opp then
    let entry_costs := 2 * cfg.entry_cost * cfg.position_size_pct * st.equity
    { equity := st.equity - entry_costs
      positions := st.positions ++ [{ coin := opp.coin, entry_time := opp.timestamp,
                                      entry_spread := opp.spread_8h,
                                      direction := opp.direction }]
      trades := st.trades
      equity_curve := st.equity_curve ++ [(opp.timestamp, st.equity - entry_costs)] }
  else
    { st with equity_curve := st.equity_curve ++ [(opp.timestamp, st.equity)] }

/-- One event of the simulate_trading loop: closes strictly before opens. -/
def simStep (cfg : SimConfig) (st : SimState) (opp : SpreadOpportunity) : SimState :=
  openPhase cfg (closePhase cfg opp.timestamp st) opp

/-- The state simulate_trading starts from: full capital, no positions, an
equity curve seeded with the first event's timestamp (the Python code uses
the wall clock when the list is empty; no claim touches that entry, and we
seed it with 0 there). -/
def initState (cfg : SimConfig) (spreads : List SpreadOpportunity) : SimState :=
  { equity := cfg.capital
    positions := []
    trades := []
    equity_curve := [(match spreads with | [] => 0 | o :: _ => o.timestamp, cfg.capital)] }

/-- Fold of the simulate_trading event loop from an explicit state. -/
def runFrom (cfg : SimConfig) (st : SimState) (l : List SpreadOpportunity) : SimState :=
  l.foldl (simStep cfg) st

/-- The full event loop of simulate_trading. -/
def runSim (cfg : SimConfig) (spreads : List SpreadOpportunity) : SimState :=
  runFrom cfg (initState cfg spreads) spreads

/-- The summary dict simulate_trading returns. -/
structure SimResult where
  initial_capital : ℚ
  final_equity : ℚ
  total_pnl : ℚ
  total_return_pct : ℚ
  annualized_return_pct : ℚ
  total_trades : Nat
  winning_trades : Nat
  equity_curve : List (Int × ℚ)
  deriving DecidableEq, Repr

/-- Last n elements of a list, the Python slice l[-n:]. -/
def lastN (n : Nat) (l : List α) : List α := l.drop (l.length - n)

/-- simulate_trading of analyze_cross_venue.py.  The one arithmetic fault the
Python code can hit on these inputs is the division equity/capital when
capital = 0 (ZeroDivisionError); that is the none case.  days is the
timedelta .days field, a floor division of the elapsed seconds. -/
def simulate_trading (cfg : SimConfig) (spreads : List SpreadOpportunity) :
    Option SimResult :=
  if cfg.capital = 0 then none
  else
    let st := runSim cfg spreads
    let total_pnl := st.equity - cfg.capital
    let total_return_pct := (st.equity / cfg.capital - 1) * 100
    let annual : ℚ :=
      match spreads with
      | [] => 0
      | o :: _ =>
        let days : Int := ((spreads.getLastD o).timestamp - o.timestamp).fdiv 86400
        if 0 < days then total_return_pct * (365 / (days : ℚ)) else 0
    some { initial_capital := cfg.capital
           final_equity := st.equity
           total_pnl := total_pnl
           total_return_pct := total_return_pct
           annualized_return_pct := annual
           total_trades := st.trades.length
           winning_trades := (st.trades.filter fun t => decide (0 < t.net)).length
           equity_curve := lastN 100 st.equity_curve }

/-- Sum of the net column of a trade log. -/
def sumNet (l : List ClosedTrade) : ℚ := (l.map ClosedTrade.net).sum

/-- The simulate_trading run replayed with two accumulators the Python code
does not keep: the total of entry costs charged and the number of positions
opened.  The state component is step-for-step the state of runSim. -/
structure RunTotals where
  state : SimState
  entry_costs_total : ℚ
  opened_count : Nat

/-- Instrumented event step: the state moves by simStep; the totals record
the entry cost and the open that the open phase performs, if any. -/
def instrStep (cfg : SimConfig) (a : RunTotals) (opp : SpreadOpportunity) : RunTotals :=
  let stC := closePhase cfg opp.timestamp a.state
  { state := openPhase cfg stC opp
    entry_costs_total := a.entry_costs_total +
      (if openCond cfg stC opp then 2 * cfg.entry_cost * cfg.position_size_pct * stC.equity
       else 0)
    opened_count := a.opened_count + (if openCond cfg stC opp then 1 else 0) }

/-- Instrumented replay of the whole run. -/
def runTotals (cfg : SimConfig) (spreads : List SpreadOpportunity) : RunTotals :=
  spreads.foldl (instrStep cfg) { state := initState cfg spreads,
                                  entry_costs_total := 0, opened_count := 0 }

/-- Total entry costs charged over a simulate_trading run. -/
def entryCostsPaid (cfg : SimConfig) (spreads : List SpreadOpportunity) : ℚ :=
  (runTotals cfg spreads).entry_costs_total

/-- Number of positions opened over a simulate_trading run. -/
def openedCount (cfg : SimConfig) (spreads : List SpreadOpportunity) : Nat :=
  (runTotals cfg spreads).opened_count

/-! ## Profitability aggregator (analyze_profitability) -/

/-- Cost/threshold parameters of analyze_profitability. -/
structure AggConfig where
  min_spread : ℚ
  entry_fee : ℚ
  exit_fee : ℚ
  slippage : ℚ
  deriving DecidableEq, Repr

/-- total_cost_per_trade = 2 * (entry_fee + slippage + exit_fee + slippage). -/
def total_cost_per_trade (c : AggConfig) : ℚ :=
  2 * (c.entry_fee + c.slippage + c.exit_fee + c.slippage)

/-- One by_coin rollup entry: count, gross, net, avg_spread. -/
structure CoinStats where
  count : Nat
  gross : ℚ
  net : ℚ
  avg_spread : ℚ
  deriving DecidableEq, Repr

/-- One by_month rollup entry: count, gross, net. -/
structure MonthStats where
  count : Nat
  gross : ℚ
  net : ℚ
  deriving DecidableEq, Repr

/-- The six fixed spread-magnitude buckets of spread_distribution, in the
order of the Python if/elif chain. -/
structure SpreadDistribution where
  d0_005 : Nat
  d005_01 : Nat
  d01_02 : Nat
  d02_05 : Nat
  d05_1 : Nat
  d_gt1 : Nat
  deriving DecidableEq, Repr

/-- The results dict of analyze_profitability; the two defaultdicts become
total functions (coin key, calendar-month key). -/
structure AggregateStats where
  total_opportunities : Nat
  tradeable_opportunities : Nat
  profitable_after_costs : Nat
  total_gross_spread : ℚ
  total_net_profit : ℚ
  by_coin : String → CoinStats
  by_month : Int → MonthStats
  spread_distribution : SpreadDistribution

/-- Calendar (year, month) of an epoch-second timestamp encoded as
year * 12 + month, the grouping key of strftime %Y-%m (civil-from-days
calendar arithmetic on the day number). -/
def monthKey (ts : Int) : Int :=
  let z := ts.fdiv 86400 + 719468
  let era := z.fdiv 146097
  let doe := z - era * 146097
  let yoe := (doe - doe.fdiv 1460 + doe.fdiv 36524 - doe.fdiv 146097).fdiv 365
  let y := yoe + era * 400
  let doy := doe - (365 * yoe + yoe.fdiv 4 - yoe.fdiv 100)
  let mp := (5 * doy + 2).fdiv 153
  let m := mp + (if mp < 10 then 3 else -9)
  (y + (if m ≤ 2 then 1 else 0)) * 12 + m

/-- The spread-magnitude classification of analyze_profitability (absolute
spread against the fixed boundaries 0.05%, 0.1%, 0.2%, 0.5%, 1%). -/
def bucketAdd (d : SpreadDistribution) (a : ℚ) : SpreadDistribution :=
  if a < 1/2000 then { d with d0_005 := d.d0_005 + 1 }
  else if a < 1/1000 then { d with d005_01 := d.d005_01 + 1 }
  else if a < 1/500 then { d with d01_02 := d.d01_02 + 1 }
  else if a < 1/200 then { d with d02_05 := d.d02_05 + 1 }
  else if a < 1/100 then { d with d05_1 := d.d05_1 + 1 }
  else { d with d_gt1 := d.d_gt1 + 1 }

/-- One event of the analyze_profitability loop. -/
def aggStep (c : AggConfig) (s : AggregateStats) (opp : SpreadOpportunity) :
    AggregateStats :=
  let a := |opp.spread_8h|
  let s1 := { s with spread_distribution := bucketAdd s.spread_distribution a }
  if c.min_spread ≤ a then
    let net := a - total_cost_per_trade c
    let s2 := { s1 with
      tradeable_opportunities := s1.tradeable_opportunities + 1
      total_gross_spread := s1.total_gross_spread + a
      profitable_after_costs := s1.profitable_after_costs + (if 0 < net then 1 else 0)
      total_net_profit := s1.total_net_profit + (if 0 < net then net else 0) }
    let s3 := { s2 with
      by_coin := fun k =>
        if k = opp.coin then
          { count := (s2.by_coin k).count + 1
            gross := (s2.by_coin k).gross + a
            net := (s2.by_coin k).net + max 0 net
            avg_spread := (s2.by_coin k).avg_spread }
        else s2.by_coin k }
    { s3 with
      by_month := fun k =>
        if k = monthKey opp.timestamp then
          { count := (s3.by_month k).count + 1
            gross := (s3.by_month k).gross + a
            net := (s3.by_month k).net + max 0 net }
        else s3.by_month k }
  else s1

/-- The results dict as analyze_profitability initializes it:
total_opportunities is len(spreads), everything else empty. -/
def aggInit (spreads : List SpreadOpportunity) : AggregateStats :=
  { total_opportunities := spreads.length
    tradeable_opportunities := 0
    profitable_after_costs := 0
    total_gross_spread := 0
    total_net_profit := 0
    by_coin := fun _ => { count := 0, gross := 0, net := 0, avg_spread := 0 }
    by_month := fun _ => { count := 0, gross := 0, net := 0 }
    spread_distribution := { d0_005 := 0, d005_01 := 0, d01_02 := 0,
                             d02_05 := 0, d05_1 := 0, d_gt1 := 0 } }

/-- The final averages pass of analyze_profitability: avg_spread =
gross / count for each coin with count > 0 (no division by zero). -/
def finalizeAvg (s : AggregateStats) : AggregateStats :=
  { s with by_coin := fun k =>
      let cs := s.by_coin k
      if 0 < cs.count then { cs with avg_spread := cs.gross / (cs.count : ℚ) } else cs }

/-- analyze_profitability of analyze_cross_venue.py. -/
def analyze_profitability (c : AggConfig) (spreads : List SpreadOpportunity) :
    AggregateStats :=
  finalizeAvg (spreads.foldl (aggStep c) (aggInit spreads))

/-- Sum of the six spread_distribution buckets. -/
def distSum (d : SpreadDistribution) : Nat :=
  d.d0_005 + d.d005_01 + d.d01_02 + d.d02_05 + d.d05_1 + d.d_gt1

/-! ## Single-venue hedge simulator (simulate_trading of analyze_hl_spot_hedge.py) -/

/-- A StrategyOpportunity restricted to the fields the hedge simulator
reads: timestamp, coin, net_yield_8h, direction. -/
structure HedgeOpp where
  timestamp : Int
  coin : String
  net_yield_8h : ℚ
  direction : String
  deriving DecidableEq, Repr

/-- The Python position tuple (coin, entry_time, entry_yield, direction). -/
structure HedgePos where
  coin : String
  entry_time : Int
  expected_yield : ℚ
  direction : String
  deriving DecidableEq, Repr

/-- One hedge trade dict: coin, entry, exit, direction, gross, net. -/
structure HedgeTrade where
  coin : String
  entry : Int
  exitTime : Int
  direction : String
  gross : ℚ
  net : ℚ
  deriving DecidableEq, Repr

/-- The keyword parameters of the hedge simulate_trading. -/
structure HedgeConfig where
  capital : ℚ
  position_pct : ℚ
  max_positions : Int
  min_net_yield : ℚ
  entry_cost : ℚ
  exit_cost : ℚ
  hold_periods : Int
  deriving DecidableEq, Repr

/-- One iteration of the hedge close loop: a mature position realizes
gross = expected_yield * hold_periods * position_pct * capital (the starting
capital, not the running equity) and pays both entry and exit costs, also on
starting capital. -/
def hedgeCloseStep (cfg : HedgeConfig) (now : Int)
    (acc : ℚ × List HedgePos × List HedgeTrade) (pos : HedgePos) :
    ℚ × List HedgePos × List HedgeTrade :=
  let periods_held : ℚ := ((now - pos.entry_time : Int) : ℚ) / (8 * 3600)
  if (cfg.hold_periods : ℚ) ≤ periods_held then
    let gross := pos.expected_yield * (cfg.hold_periods : ℚ) * cfg.position_pct * cfg.capital
    let costs := (cfg.entry_cost + cfg.exit_cost) * cfg.position_pct * cfg.capital
    let net := gross - costs
    (acc.1 + net, acc.2.1,
      acc.2.2 ++ [{ coin := pos.coin, entry := pos.entry_time, exitTime := now,
                    direction := pos.direction, gross := gross, net := net }])
  else
    (acc.1, acc.2.1 ++ [pos], acc.2.2)

/-- One event of the hedge simulate_trading loop: close mature positions,
then open on the event's coin when net_yield_8h ≥ min_net_yield, a slot is
free and the coin has no open position (no cost is paid at open). -/
def hedgeStep (cfg : HedgeConfig) (st : ℚ × List HedgePos × List HedgeTrade)
    (opp : HedgeOpp) : ℚ × List HedgePos × List HedgeTrade :=
  let c := st.2.1.foldl (hedgeCloseStep cfg opp.timestamp) (st.1, [], st.2.2)
  if cfg.min_net_yield ≤ opp.net_yield_8h ∧
      (c.2.1.length : Int) < cfg.max_positions ∧
      opp.coin ∉ c.2.1.map HedgePos.coin then
    (c.1, c.2.1 ++ [{ coin := opp.coin, entry_time := opp.timestamp,
                      expected_yield := opp.net_yield_8h, direction := opp.direction }],
     c.2.2)
  else c

/-- The event loop of the hedge simulate_trading: (equity, positions, trades)
from (capital, [], []). -/
def hedgeRun (cfg : HedgeConfig) (opps : List HedgeOpp) :
    ℚ × List HedgePos × List HedgeTrade :=
  opps.foldl (hedgeStep cfg) (cfg.capital, [], [])

/-- Sign of a rational, the sign() of the spec's spread sign law. -/
def qsign (q : ℚ) : Int := if 0 < q then 1 else if q < 0 then -1 else 0

attribute [ext] SpreadDistribution CoinStats MonthStats AggregateStats

/-! ## Proof scaffolding: the aggregator step re-expressed with amounts that
depend only on the event (used to prove order-independence). -/

/-- The bucket an absolute spread falls into, 0..5 in the order of the
if/elif chain of analyze_profitability. -/
def bucketIdx (a : ℚ) : Fin 6 :=
  if a < 1/2000 then 0
  else if a < 1/1000 then 1
  else if a < 1/500 then 2
  else if a < 1/200 then 3
  else if a < 1/100 then 4
  else 5

/-- Increment one bucket of the distribution by index. -/
def bumpIdx (d : SpreadDistribution) : Fin 6 → SpreadDistribution
  | 0 => { d with d0_005 := d.d0_005 + 1 }
  | 1 => { d with d005_01 := d.d005_01 + 1 }
  | 2 => { d with d01_02 := d.d01_02 + 1 }
  | 3 => { d with d02_05 := d.d02_05 + 1 }
  | 4 => { d with d05_1 := d.d05_1 + 1 }
  | 5 => { d with d_gt1 := d.d_gt1 + 1 }

/-- The tradeable test of analyze_profitability for one event. -/
abbrev tradeableFlag (c : AggConfig) (e : SpreadOpportunity) : Prop :=
  c.min_spread ≤ |e.spread_8h|

/-- The profitable test of analyze_profitability for one event. -/
abbrev profitFlag (c : AggConfig) (e : SpreadOpportunity) : Prop :=
  tradeableFlag c e ∧ 0 < |e.spread_8h| - total_cost_per_trade c

/-- One aggregator event step rewritten so that every added amount depends
only on the event, never on the accumulator (proved equal to aggStep). -/
def applyDelta (c : AggConfig) (e : SpreadOpportunity) (s : AggregateStats) :
    AggregateStats :=
  { total_opportunities := s.total_opportunities
    tradeable_opportunities :=
      s.tradeable_opportunities + (if tradeableFlag c e then 1 else 0)
    profitable_after_costs :=
      s.profitable_after_costs + (if profitFlag c e then 1 else 0)
    total_gross_spread :=
      s.total_gross_spread + (if tradeableFlag c e then |e.spread_8h| else 0)
    total_net_profit :=
      s.total_net_profit +
        (if profitFlag c e then |e.spread_8h| - total_cost_per_trade c else 0)
    by_coin := fun k =>
      if tradeableFlag c e ∧ k = e.coin then
        { count := (s.by_coin k).count + 1
          gross := (s.by_coin k).gross + |e.spread_8h|
          net := (s.by_coin k).net + max 0 (|e.spread_8h| - total_cost_per_trade c)
          avg_spread := (s.by_coin k).avg_spread }
      else s.by_coin k
    by_month := fun k =>
      if tradeableFlag c e ∧ k = monthKey e.timestamp then
        { count := (s.by_month k).count + 1
          gross := (s.by_month k).gross + |e.spread_8h|
          net := (s.by_month k).net + max 0 (|e.spread_8h| - total_cost_per_trade c) }
      else s.by_month k
    spread_distribution := bucketAdd s.spread_distribution |e.spread_8h| }

/-! ## Concrete inputs for the witnesses and counterexamples. -/

def btc : String := "BTC"

/-- Eight hourly HL records, one per expected sub-timestamp of the period
ending at 0 (Scenario A of the spec). -/
def hl8 : List FundingRec :=
  [(0, 1/10000), (-3600, 1/10000), (-7200, 1/10000), (-10800, 1/10000),
   (-14400, 1/10000), (-18000, 1/10000), (-21600, 1/10000), (-25200, 1/10000)]

/-- Only 3 of the 8 expected hourly sub-samples (Scenario B of the spec). -/
def hl3of8 : List FundingRec := [(-3600, 1/10000), (-7200, 1/10000), (-10800, 1/10000)]

def bn0 : List FundingRec := [(0, 0)]

/-- Three exact hourly matches plus two records that both fall inside the
30-minute tolerance window of the sub-timestamp 0: the scanned order of the
last two decides which rate is consumed. -/
def hlShared : List FundingRec := [(-3600, 0), (-7200, 0), (-10800, 0)]
def hlA : List FundingRec := hlShared ++ [(-600, 1/1000), (600, 1/500)]
def hlB : List FundingRec := hlShared ++ [(600, 1/500), (-600, 1/1000)]

/-- The event hlA yields against bn0. -/
def eA : SpreadOpportunity :=
  { timestamp := 0
    coin := btc
    hl_rate_8h := 1/1000
    binance_rate_8h := 0
    spread_8h := 1/1000
    direction := .longBinanceShortHl }

/-- The event hlB yields against bn0. -/
def eB : SpreadOpportunity :=
  { timestamp := 0
    coin := btc
    hl_rate_8h := 1/500
    binance_rate_8h := 0
    spread_8h := 1/500
    direction := .longBinanceShortHl }

/-- Four matched sub-samples, all zero rates: an emitted event with spread 0. -/
def hlZ : List FundingRec := [(0, 0), (-3600, 0), (-7200, 0), (-10800, 0)]

/-- The zero-spread event hlZ yields against bn0. -/
def eZ : SpreadOpportunity :=
  { timestamp := 0
    coin := btc
    hl_rate_8h := 0
    binance_rate_8h := 0
    spread_8h := 0
    direction := .longHlShortBinance }

/-- The Scenario A event: 8 hourly records of 0.0001 against a Binance rate
of 0.0005 give spread 0.0003, direction long Binance short HL. -/
def e8 : SpreadOpportunity :=
  { timestamp := 0
    coin := btc
    hl_rate_8h := 1/1250
    binance_rate_8h := 1/2000
    spread_8h := 3/10000
    direction := .longBinanceShortHl }

def bnW : List FundingRec := [(0, 1/2000), (28800, 1/2000)]
def bnW2 : List FundingRec := [(28800, 1/2000), (0, 1/2000)]

/-- The source defaults of simulate_trading in analyze_cross_venue.py. -/
def c1cfg : SimConfig :=
  { capital := 10000
    position_size_pct := 1/5
    max_positions := 3
    min_spread := 1/2000
    hold_periods := 1
    entry_cost := 3/10000
    exit_cost := 3/10000 }

/-- A qualifying event: spread 0.001 at time 0. -/
def e1 : SpreadOpportunity :=
  { timestamp := 0
    coin := btc
    hl_rate_8h := 1/1000
    binance_rate_8h := 0
    spread_8h := 1/1000
    direction := .longBinanceShortHl }

/-- One funding period later, spread below the entry threshold: it closes
the open position and opens nothing. -/
def e2 : SpreadOpportunity :=
  { timestamp := 28800
    coin := btc
    hl_rate_8h := 1/10000
    binance_rate_8h := 0
    spread_8h := 1/10000
    direction := .longBinanceShortHl }

def cfgNegCap : SimConfig := { c1cfg with capital := -1 }
def cfgBadFrac : SimConfig := { c1cfg with position_size_pct := 2 }
def cfgZeroMax : SimConfig := { c1cfg with max_positions := 0 }
def cfgNegMax : SimConfig := { c1cfg with max_positions := -1 }

def posW : OpenPosition :=
  { coin := btc
    entry_time := 0
    entry_spread := 1/1000
    direction := .longBinanceShortHl }

/-- The source defaults of the hedge simulate_trading. -/
def c7cfg : HedgeConfig :=
  { capital := 10000
    position_pct := 1/4
    max_positions := 4
    min_net_yield := 1/1000
    entry_cost := 1/1000
    exit_cost := 1/1000
    hold_periods := 3 }

def coinA : String := "A"
def coinB : String := "B"
def coinC : String := "C"
def shortHl : String := "short_hl"

def o1 : HedgeOpp := { timestamp := 0, coin := coinA, net_yield_8h := 1/500, direction := shortHl }
def o2 : HedgeOpp := { timestamp := 86400, coin := coinB, net_yield_8h := 1/500, direction := shortHl }
def o3 : HedgeOpp := { timestamp := 172800, coin := coinC, net_yield_8h := 1/500, direction := shortHl }

def hedgeTradeZero : HedgeTrade :=
  { coin := "", entry := 0, exitTime := 0, direction := "", gross := 0, net := 0 }

/-- The source defaults of analyze_profitability. -/
def c9cfg : AggConfig :=
  { min_spread := 1/2000
    entry_fee := 2/10000
    exit_fee := 2/10000
    slippage := 1/10000 }

/-! ## Helper lemmas about the close fold of simulate_trading. -/

/-- The close loop changes equity by exactly the sum of the nets of the
trades it appends. -/
theorem closeFold_equity (cfg : SimConfig) (now : Int) :
    ∀ (ps : List OpenPosition) (eqv : ℚ) (kept : List OpenPosition) (tr : List ClosedTrade),
      (ps.foldl (closeStep cfg now) (eqv, kept, tr)).1
          - sumNet (ps.foldl (closeStep cfg now) (eqv, kept, tr)).2.2
        = eqv - sumNet tr := by
  intro ps
  induction ps with
  | nil => intro eqv kept tr; simp
  | cons p ps ih =>
    intro eqv kept tr
    simp only [List.foldl_cons, closeStep]
    split
    · rw [ih]
      simp [sumNet]
    · exact ih ..

/-- The close loop sends every scanned position either to the kept list or
to the trade log: kept + closed counts are conserved. -/
theorem closeFold_count (cfg : SimConfig) (now : Int) :
    ∀ (ps : List OpenPosition) (eqv : ℚ) (kept : List OpenPosition) (tr : List ClosedTrade),
      (ps.foldl (closeStep cfg now) (eqv, kept, tr)).2.1.length
          + (ps.foldl (closeStep cfg now) (eqv, kept, tr)).2.2.length
        = kept.length + tr.length + ps.length := by
  intro ps
  induction ps with
  | nil => intro eqv kept tr; simp
  | cons p ps ih =>
    intro eqv kept tr
    simp only [List.foldl_cons, closeStep]
    split
    · rw [ih]
      simp
      omega
    · rw [ih]
      simp
      omega

/-- The close loop never adds positions. -/
theorem closeFold_kept_le (cfg : SimConfig) (now : Int) :
    ∀ (ps : List OpenPosition) (eqv : ℚ) (kept : List OpenPosition) (tr : List ClosedTrade),
      (ps.foldl (closeStep cfg now) (eqv, kept, tr)).2.1.length ≤ kept.length + ps.length := by
  intro ps
  induction ps with
  | nil => intro eqv kept tr; simp
  | cons p ps ih =>
    intro eqv kept tr
    simp only [List.foldl_cons, closeStep]
    split
    · calc _ ≤ kept.length + ps.length := ih ..
        _ ≤ kept.length + (p :: ps).length := by simp
    · calc _ ≤ (kept ++ [p]).length + ps.length := ih ..
        _ ≤ kept.length + (p :: ps).length := by
            simp only [List.length_append, List.length_cons, List.length_nil]
            omega

/-- Close phase: equity moves by the freshly realized nets. -/
theorem closePhase_equity (cfg : SimConfig) (now : Int) (st : SimState) :
    (closePhase cfg now st).equity - sumNet (closePhase cfg now st).trades
      = st.equity - sumNet st.trades := by
  simp only [closePhase]
  exact closeFold_equity cfg now st.positions st.equity [] st.trades

/-- Close phase: positions plus logged trades are conserved. -/
theorem closePhase_count (cfg : SimConfig) (now : Int) (st : SimState) :
    (closePhase cfg now st).positions.length + (closePhase cfg now st).trades.length
      = st.positions.length + st.trades.length := by
  simp only [closePhase]
  have h := closeFold_count cfg now st.positions st.equity [] st.trades
  simp only [List.length_nil] at h
  omega

/-- Close phase: the number of open positions never grows. -/
theorem closePhase_length_le (cfg : SimConfig) (now : Int) (st : SimState) :
    (closePhase cfg now st).positions.length ≤ st.positions.length := by
  simp only [closePhase]
  have h := closeFold_kept_le cfg now st.positions st.equity [] st.trades
  simpa using h

/-! ## Helper lemmas about the instrumented replay. -/

/-- The instrumented fold tracks the simulate_trading state exactly. -/
theorem instr_state (cfg : SimConfig) :
    ∀ (l : List SpreadOpportunity) (a : RunTotals),
      (l.foldl (instrStep cfg) a).state = l.foldl (simStep cfg) a.state := by
  intro l
  induction l with
  | nil => intro a; rfl
  | cons e l ih =>
    intro a
    simp only [List.foldl_cons]
    rw [ih]
    rfl

/-- Equity bookkeeping invariant: equity stays equal to capital plus logged
nets minus the entry costs charged so far. -/
theorem instr_equity (cfg : SimConfig) :
    ∀ (l : List SpreadOpportunity) (a : RunTotals),
      a.state.equity = cfg.capital + sumNet a.state.trades - a.entry_costs_total →
      (l.foldl (instrStep cfg) a).state.equity
        = cfg.capital + sumNet (l.foldl (instrStep cfg) a).state.trades
          - (l.foldl (instrStep cfg) a).entry_costs_total := by
  intro l
  induction l with
  | nil => intro a ha; exact ha
  | cons e l ih =>
    intro a ha
    simp only [List.foldl_cons]
    apply ih
    have hcp := closePhase_equity cfg e.timestamp a.state
    by_cases hoc : openCond cfg (closePhase cfg e.timestamp a.state) e
    · simp only [instrStep, openPhase, if_pos hoc]
      linarith
    · simp only [instrStep, openPhase, if_neg hoc]
      linarith

/-- Open-count invariant: logged trades plus open positions always equal the
number of positions opened so far. -/
theorem instr_opened (cfg : SimConfig) :
    ∀ (l : List SpreadOpportunity) (a : RunTotals),
      a.state.trades.length + a.state.positions.length = a.opened_count →
      (l.foldl (instrStep cfg) a).state.trades.length
          + (l.foldl (instrStep cfg) a).state.positions.length
        = (l.foldl (instrStep cfg) a).opened_count := by
  intro l
  induction l with
  | nil => intro a ha; exact ha
  | cons e l ih =>
    intro a ha
    simp only [List.foldl_cons]
    apply ih
    have hcp := closePhase_count cfg e.timestamp a.state
    by_cases hoc : openCond cfg (closePhase cfg e.timestamp a.state) e
    · simp only [instrStep, openPhase, if_pos hoc]
      simp only [List.length_append, List.length_cons, List.length_nil]
      omega
    · simp only [instrStep, openPhase, if_neg hoc]
      omega

/-- Step-cap lemma: one simulate_trading event preserves the position cap. -/
theorem simStep_cap (cfg : SimConfig) (hmax : 0 ≤ cfg.max_positions) (st : SimState)
    (opp : SpreadOpportunity)
    (hst : (st.positions.length : Int) ≤ cfg.max_positions) :
    ((simStep cfg st opp).positions.length : Int) ≤ cfg.max_positions := by
  have hc : (closePhase cfg opp.timestamp st).positions.length ≤ st.positions.length :=
    closePhase_length_le cfg opp.timestamp st
  unfold simStep openPhase
  by_cases hoc : openCond cfg (closePhase cfg opp.timestamp st) opp
  · rw [if_pos hoc]
    have hlt := hoc.2.1
    simp only [List.length_append, List.length_cons, List.length_nil]
    push_cast
    push_cast at hlt
    omega
  · rw [if_neg hoc]
    push_cast
    omega

/-- Fold-cap lemma: the cap is preserved along any run. -/
theorem runFrom_cap (cfg : SimConfig) (hmax : 0 ≤ cfg.max_positions) :
    ∀ (l : List SpreadOpportunity) (st : SimState),
      (st.positions.length : Int) ≤ cfg.max_positions →
      ((runFrom cfg st l).positions.length : Int) ≤ cfg.max_positions := by
  intro l
  induction l with
  | nil => intro st h; exact h
  | cons e l ih =>
    intro st h
    exact ih _ (simStep_cap cfg hmax st e h)

/-- Evaluation of the two-event counterexample run: the position opened at
e1 is closed at e2, nothing stays open, and the final figures are exact. -/
theorem c1_run_eval :
    (runSim c1cfg [e1, e2]).positions = [] ∧
    (runSim c1cfg [e1, e2]).equity = 312487497/31250 ∧
    sumNet (runSim c1cfg [e1, e2]).trades = 24997/31250 := by
  norm_num [runSim, runFrom, initState, simStep, openPhase, closePhase, closeStep,
    openCond, sumNet, c1cfg, e1, e2, btc, abs]

/-! ## Helper lemmas about the aggregator. -/

/-- bucketAdd is the indexed bump at the bucket index. -/
theorem bucketAdd_eq_bumpIdx (d : SpreadDistribution) (a : ℚ) :
    bucketAdd d a = bumpIdx d (bucketIdx a) := by
  unfold bucketAdd bucketIdx
  split_ifs <;> rfl

/-- Indexed bumps commute. -/
theorem bumpIdx_comm (d : SpreadDistribution) (i j : Fin 6) :
    bumpIdx (bumpIdx d i) j = bumpIdx (bumpIdx d j) i := by
  fin_cases i <;> fin_cases j <;> rfl

/-- Bucket classification commutes. -/
theorem bucketAdd_rightComm (d : SpreadDistribution) (a b : ℚ) :
    bucketAdd (bucketAdd d a) b = bucketAdd (bucketAdd d b) a := by
  rw [bucketAdd_eq_bumpIdx, bucketAdd_eq_bumpIdx, bucketAdd_eq_bumpIdx d b,
    bucketAdd_eq_bumpIdx, bumpIdx_comm]

/-- The aggregator step adds only event-determined deltas. -/
theorem aggStep_eq_applyDelta (c : AggConfig) (s : AggregateStats)
    (e : SpreadOpportunity) : aggStep c s e = applyDelta c e s := by
  by_cases ht : tradeableFlag c e
  · by_cases hp : 0 < |e.spread_8h| - total_cost_per_trade c
    · simp [aggStep, applyDelta, tradeableFlag, profitFlag, ht, hp,
        max_eq_right (le_of_lt hp)]
    · simp [aggStep, applyDelta, tradeableFlag, profitFlag, ht, hp,
        max_eq_left (le_of_not_lt hp)]
  · simp [aggStep, applyDelta, tradeableFlag, profitFlag, ht]

/-- Event deltas commute with each other. -/
theorem applyDelta_comm (c : AggConfig) (x y : SpreadOpportunity) (s : AggregateStats) :
    applyDelta c y (applyDelta c x s) = applyDelta c x (applyDelta c y s) := by
  unfold applyDelta
  refine AggregateStats.ext rfl ?_ ?_ ?_ ?_ ?_ ?_ ?_
  · show s.tradeable_opportunities + _ + _ = s.tradeable_opportunities + _ + _
    omega
  · show s.profitable_after_costs + _ + _ = s.profitable_after_costs + _ + _
    omega
  · show s.total_gross_spread + _ + _ = s.total_gross_spread + _ + _
    ring
  · show s.total_net_profit + _ + _ = s.total_net_profit + _ + _
    ring
  · funext k
    by_cases hx : tradeableFlag c x ∧ k = x.coin <;>
      by_cases hy : tradeableFlag c y ∧ k = y.coin
    · simp only [if_pos hx, if_pos hy]
      refine CoinStats.ext ?_ ?_ ?_ ?_ <;> simp <;> ring
    · simp only [if_pos hx, if_neg hy]
    · simp only [if_pos hy, if_neg hx]
    · simp only [if_neg hx, if_neg hy]
  · funext k
    by_cases hx : tradeableFlag c x ∧ k = monthKey x.timestamp <;>
      by_cases hy : tradeableFlag c y ∧ k = monthKey y.timestamp
    · simp only [if_pos hx, if_pos hy]
      refine MonthStats.ext ?_ ?_ ?_ <;> simp <;> ring
    · simp only [if_pos hx, if_neg hy]
    · simp only [if_pos hy, if_neg hx]
    · simp only [if_neg hx, if_neg hy]
  · exact bucketAdd_rightComm s.spread_distribution |x.spread_8h| |y.spread_8h|

/-- Distribution sum after an indexed bump. -/
theorem distSum_bumpIdx (d : SpreadDistribution) (i : Fin 6) :
    distSum (bumpIdx d i) = distSum d + 1 := by
  fin_cases i <;> simp [bumpIdx, distSum] <;> omega

/-- One aggregator event adds exactly one bucket tick and leaves the total
opportunity count alone. -/
theorem aggStep_dist (c : AggConfig) (s : AggregateStats) (e : SpreadOpportunity) :
    (aggStep c s e).spread_distribution = bucketAdd s.spread_distribution |e.spread_8h| ∧
    (aggStep c s e).total_opportunities = s.total_opportunities := by
  rw [aggStep_eq_applyDelta]
  exact ⟨rfl, rfl⟩

/-- Along the whole pass, the bucket counts sum to the events processed. -/
theorem foldl_dist (c : AggConfig) :
    ∀ (l : List SpreadOpportunity) (s : AggregateStats),
      distSum (l.foldl (aggStep c) s).spread_distribution
          = distSum s.spread_distribution + l.length ∧
      (l.foldl (aggStep c) s).total_opportunities = s.total_opportunities := by
  intro l
  induction l with
  | nil => intro s; simp
  | cons e l ih =>
    intro s
    simp only [List.foldl_cons, List.length_cons]
    obtain ⟨h1, h2⟩ := ih (aggStep c s e)
    obtain ⟨hd, ht⟩ := aggStep_dist c s e
    refine ⟨?_, by rw [h2, ht]⟩
    rw [h1, hd, bucketAdd_eq_bumpIdx, distSum_bumpIdx]
    omega

/-! ## The claims. -/

/-- C1, counterexample. The claim states final equity equals capital plus
the summed trade nets minus the entry costs of never-closed positions only,
to 1e-9 relative tolerance. On a run whose one position is opened at e1 and
closed at e2 (so nothing stays open and the claimed correction term is 0),
final equity still falls short of capital + net by the 1.2 entry cost of the
closed position: the trade net never refunds entry costs. -/
theorem equity_claim_fails_on_closed_trade :
    (runSim c1cfg [e1, e2]).positions = [] ∧
    ¬ (|(runSim c1cfg [e1, e2]).equity
          - (c1cfg.capital + sumNet (runSim c1cfg [e1, e2]).trades)|
        ≤ 1/1000000000 * |c1cfg.capital + sumNet (runSim c1cfg [e1, e2]).trades|) := by
  obtain ⟨hp, he, hs⟩ := c1_run_eval
  refine ⟨hp, ?_⟩
  rw [he, hs, show c1cfg.capital = 10000 from rfl,
    show (10000 : ℚ) + 24997/31250 = 312524997/31250 by norm_num,
    show (312487497/31250 : ℚ) - 312524997/31250 = -(6/5) by norm_num, abs_neg,
    abs_of_nonneg (by norm_num : (0:ℚ) ≤ 6/5),
    abs_of_nonneg (by norm_num : (0:ℚ) ≤ (312524997/31250 : ℚ))]
  norm_num

/-- C1, amended: for every configuration and event sequence, final equity
equals capital plus the summed nets of the logged trades minus the entry
costs of ALL positions opened during the run (each charged at the equity
prevailing when it was opened), exactly. -/
theorem equity_conservation_amended (cfg : SimConfig) (spreads : List SpreadOpportunity) :
    (runSim cfg spreads).equity
      = cfg.capital + sumNet (runSim cfg spreads).trades - entryCostsPaid cfg spreads := by
  have h0 : ({ state := initState cfg spreads, entry_costs_total := 0,
                opened_count := 0 } : RunTotals).state.equity
      = cfg.capital
        + sumNet ({ state := initState cfg spreads, entry_costs_total := 0,
                    opened_count := 0 } : RunTotals).state.trades
        - ({ state := initState cfg spreads, entry_costs_total := 0,
             opened_count := 0 } : RunTotals).entry_costs_total := by
    simp [initState, sumNet]
  have h := instr_equity cfg spreads _ h0
  rw [instr_state cfg spreads] at h
  unfold entryCostsPaid runTotals
  unfold runSim runFrom
  exact h

/-- C2: an aligned event is only ever emitted when at least 4 of the 8
expected hourly sub-samples matched within the strict 30-minute tolerance;
and concretely, with exactly 3 of 8 sub-samples present the period is
discarded — no event is emitted and no value is estimated in its place. -/
theorem coverage_rule :
    (∀ (hl bn : List FundingRec) (c : String) (e : SpreadOpportunity),
        e ∈ align_coin_spreads hl bn c → 4 ≤ (hlWindow hl e.timestamp).2) ∧
    align_coin_spreads hl3of8 [(0, 1/2000)] btc = [] := by
  constructor
  · intro hl bn c e he
    obtain ⟨rec, hmem, hrec⟩ := List.mem_filterMap.mp he
    simp only [processBinanceRecord] at hrec
    split at hrec
    · exact absurd hrec (by simp)
    · rcases Option.some.inj hrec with rfl
      show 4 ≤ (hlWindow hl rec.1).2
      omega
  · norm_num [align_coin_spreads, processBinanceRecord, hlWindow, findHlMatch, hl3of8,
      List.range_succ, List.filterMap, List.find?]

/-- C3, counterexample. hlA and hlB hold the same HL records in different
orders, yet the aligner emits different events ({eA} versus {eB}, which
differ in primary value and spread): first-match-wins makes the output
depend on the scan order when two records fall in one tolerance window. -/
theorem alignment_not_hl_order_invariant :
    hlA.Perm hlB ∧
    align_coin_spreads hlA bn0 btc = [eA] ∧
    align_coin_spreads hlB bn0 btc = [eB] ∧
    eA ≠ eB := by
  refine ⟨List.Perm.append_left hlShared (List.Perm.swap _ _ _), ?_, ?_, ?_⟩
  · norm_num [align_coin_spreads, processBinanceRecord, hlWindow, findHlMatch, hlA, hlShared,
      bn0, eA, List.range_succ, List.filterMap, List.find?]
  · norm_num [align_coin_spreads, processBinanceRecord, hlWindow, findHlMatch, hlB, hlShared,
      bn0, eB, List.range_succ, List.filterMap, List.find?]
  · intro h
    have := congrArg SpreadOpportunity.hl_rate_8h h
    norm_num [eA, eB] at this

/-- C3, amended: permuting the reference-venue (Binance) records produces a
permutation of the emitted events — the same set of AlignedEvents; permuting
the HL records does not in general (see the counterexample). -/
theorem alignment_binance_perm_invariant (hl bn bn2 : List FundingRec) (c : String)
    (h : bn.Perm bn2) :
    (align_coin_spreads hl bn c).Perm (align_coin_spreads hl bn2 c) :=
  h.filterMap _

/-- C3, witness at a concrete permuted pair of Binance record lists. -/
theorem alignment_binance_perm_invariant_witness :
    (align_coin_spreads hl8 bnW btc).Perm (align_coin_spreads hl8 bnW2 btc) :=
  alignment_binance_perm_invariant hl8 bnW bnW2 btc (List.Perm.swap _ _ _)

/-- C4, counterexample. With max_positions = -1 (the claim quantifies over
every max_positions and the simulator accepts any integer), the state after
the first event holds 0 open positions, and 0 is not at most -1. -/
theorem cap_fails_negative_max_positions :
    ¬ (((runFrom cfgNegMax (initState cfgNegMax [e1]) [e1]).positions.length : Int)
        ≤ cfgNegMax.max_positions) := by
  have h : (runFrom cfgNegMax (initState cfgNegMax [e1]) [e1]).positions = [] := by
    norm_num [runFrom, initState, simStep, openPhase, closePhase, closeStep, openCond,
      cfgNegMax, c1cfg, e1, btc, abs]
  rw [h]
  decide

/-- C4, amended: for every max_positions ≥ 0, every event sequence and every
point of the run — both after the close phase and after the open phase of
each event — the number of open positions is at most max_positions. -/
theorem position_cap_invariant (cfg : SimConfig) (spreads : List SpreadOpportunity)
    (hmax : 0 ≤ cfg.max_positions) (pre : List SpreadOpportunity) (opp : SpreadOpportunity)
    (post : List SpreadOpportunity) (hsplit : spreads = pre ++ opp :: post) :
    ((closePhase cfg opp.timestamp
        (runFrom cfg (initState cfg spreads) pre)).positions.length : Int)
        ≤ cfg.max_positions ∧
    ((runFrom cfg (initState cfg spreads) (pre ++ [opp])).positions.length : Int)
        ≤ cfg.max_positions := by
  have h0 : (((initState cfg spreads).positions.length : Int)) ≤ cfg.max_positions := by
    simp [initState]
    omega
  have hpre := runFrom_cap cfg hmax pre (initState cfg spreads) h0
  constructor
  · have := closePhase_length_le cfg opp.timestamp (runFrom cfg (initState cfg spreads) pre)
    push_cast at hpre ⊢
    omega
  · show ((List.foldl (simStep cfg) (initState cfg spreads) (pre ++ [opp])).positions.length : Int)
        ≤ cfg.max_positions
    rw [List.foldl_append]
    exact simStep_cap cfg hmax _ opp hpre

/-- C4, witness: the cap holds after the close and open phases of the one
event of a concrete run with max_positions = 3. -/
theorem position_cap_invariant_witness :
    ((closePhase c1cfg e1.timestamp
        (runFrom c1cfg (initState c1cfg [e1]) [])).positions.length : Int)
        ≤ c1cfg.max_positions ∧
    ((runFrom c1cfg (initState c1cfg [e1]) ([] ++ [e1])).positions.length : Int)
        ≤ c1cfg.max_positions :=
  position_cap_invariant c1cfg [e1] (by decide) [] e1 [] rfl

/-- C5: the simulator performs no configuration validation. With negative
capital it runs to completion and returns a result (final equity
-24997/25000 after opening a position on e1); with position fraction 2
(outside (0,1]) and with max_positions = 0 it likewise returns normally.
No rejection happens before or during simulation. -/
theorem no_config_validation :
    (simulate_trading cfgNegCap [e1]).map SimResult.final_equity = some (-(24997/25000)) ∧
    (simulate_trading cfgBadFrac [e1]).isSome = true ∧
    (simulate_trading cfgZeroMax [e1]).isSome = true := by
  refine ⟨?_, ?_, ?_⟩
  · norm_num [simulate_trading, runSim, runFrom, initState, simStep, openPhase, closePhase,
      closeStep, openCond, cfgNegCap, c1cfg, e1, btc, abs]
  · norm_num [simulate_trading, cfgBadFrac, c1cfg]
  · norm_num [simulate_trading, cfgZeroMax, c1cfg]

/-- C6, counterexample. The aligner emits an event with spread exactly 0
(four matched sub-samples of rate 0 against a Binance rate of 0); its
direction is A_over_B (long_hl_short_binance), but sign(spread) = 0, not -1,
so the claimed sign law "sign(spread) = -1 when direction = A_over_B" fails. -/
theorem zero_spread_direction_sign :
    align_coin_spreads hlZ bn0 btc = [eZ] ∧
    eZ.direction = Direction.longHlShortBinance ∧
    eZ.spread_8h = 0 ∧
    qsign eZ.spread_8h ≠ -1 := by
  refine ⟨?_, rfl, rfl, ?_⟩
  · norm_num [align_coin_spreads, processBinanceRecord, hlWindow, findHlMatch, hlZ, bn0, eZ,
      List.range_succ, List.filterMap, List.find?]
  · norm_num [qsign, eZ]

/-- C6, amended: for every emitted cross-venue event, spread equals the
primary value minus the reference value, direction = B_over_A exactly when
spread > 0, and direction = A_over_B exactly when spread ≤ 0 (so the sign
is +1 for B_over_A, and -1 or 0 for A_over_B). -/
theorem spread_sign_amended (hl bn : List FundingRec) (c : String) (e : SpreadOpportunity)
    (he : e ∈ align_coin_spreads hl bn c) :
    e.spread_8h = e.hl_rate_8h - e.binance_rate_8h ∧
    (e.direction = Direction.longBinanceShortHl ↔ 0 < e.spread_8h) ∧
    (e.direction = Direction.longHlShortBinance ↔ e.spread_8h ≤ 0) := by
  obtain ⟨rec, hmem, hrec⟩ := List.mem_filterMap.mp he
  simp only [processBinanceRecord] at hrec
  split at hrec
  · exact absurd hrec (by simp)
  · rcases Option.some.inj hrec with rfl
    by_cases h0 : 0 < (hlWindow hl rec.1).1 - rec.2
    · refine ⟨rfl, ?_, ?_⟩ <;> show (if 0 < (hlWindow hl rec.1).1 - rec.2 then
          Direction.longBinanceShortHl else Direction.longHlShortBinance) = _ ↔ _
      · rw [if_pos h0]
        exact iff_of_true rfl h0
      · rw [if_pos h0]
        exact iff_of_false (fun hcontr => nomatch hcontr) (not_le.mpr h0)
    · refine ⟨rfl, ?_, ?_⟩ <;> show (if 0 < (hlWindow hl rec.1).1 - rec.2 then
          Direction.longBinanceShortHl else Direction.longHlShortBinance) = _ ↔ _
      · rw [if_neg h0]
        exact iff_of_false (fun hcontr => nomatch hcontr) h0
      · rw [if_neg h0]
        exact iff_of_true rfl (le_of_not_lt h0)

/-- C6, witness at the Scenario A event (spread 0.0003 > 0, B_over_A). -/
theorem spread_sign_amended_witness :
    e8.spread_8h = e8.hl_rate_8h - e8.binance_rate_8h ∧
    (e8.direction = Direction.longBinanceShortHl ↔ 0 < e8.spread_8h) ∧
    (e8.direction = Direction.longHlShortBinance ↔ e8.spread_8h ≤ 0) :=
  spread_sign_amended hl8 [(0, 1/2000)] btc e8 (by
    norm_num [align_coin_spreads, processBinanceRecord, hlWindow, findHlMatch, hl8, e8,
      List.range_succ, List.filterMap, List.find?])

/-- C7, counterexample. In the hedge simulator, two trades close with gross
15 each although equity is 10010 (not the starting 10000) when the second
one closes: its gross is expected_yield x hold_periods x fraction x initial
capital = 15, not the claimed yield x fraction x equity-at-close = 15.015. -/
theorem hedge_close_uses_initial_capital :
    ((hedgeRun c7cfg [o1, o2, o3]).2.2.map HedgeTrade.gross = [15, 15]) ∧
    (hedgeRun c7cfg [o1, o2]).1 = 10010 ∧
    ((hedgeRun c7cfg [o1, o2, o3]).2.2.getLastD hedgeTradeZero).gross
      ≠ o2.net_yield_8h * (c7cfg.hold_periods : ℚ) * c7cfg.position_pct
          * (hedgeRun c7cfg [o1, o2]).1 := by
  refine ⟨?_, ?_, ?_⟩ <;>
    norm_num [hedgeRun, hedgeStep, hedgeCloseStep, c7cfg, o1, o2, o3, coinA, coinB, coinC,
      shortHl, hedgeTradeZero, abs]

/-- C7, amended: in the cross-venue simulator a mature position closing at
running equity eqv realizes gross = |entry spread| x position_fraction x eqv
(the entry-period spread, at the equity at the time of close), deducts the
two-leg exit cost on the same base, adds the net to equity and appends the
trade; the hedge simulator instead multiplies by the starting capital (see
the counterexample). -/
theorem close_phase_pnl_amended (cfg : SimConfig) (now : Int) (eqv : ℚ)
    (kept : List OpenPosition) (tr : List ClosedTrade) (pos : OpenPosition)
    (hdue : (cfg.hold_periods : ℚ) ≤ ((now - pos.entry_time : Int) : ℚ) / (8 * 3600)) :
    closeStep cfg now (eqv, kept, tr) pos =
      (eqv + (|pos.entry_spread| * cfg.position_size_pct * eqv
              - 2 * cfg.exit_cost * cfg.position_size_pct * eqv),
       kept,
       tr ++ [{ coin := pos.coin, entry := pos.entry_time, exitTime := now,
                gross := |pos.entry_spread| * cfg.position_size_pct * eqv,
                net := |pos.entry_spread| * cfg.position_size_pct * eqv
                       - 2 * cfg.exit_cost * cfg.position_size_pct * eqv }]) := by
  simp only [closeStep]
  rw [if_pos hdue]

/-- C7, witness: a position entered at time 0 with spread 0.001 closing one
8-hour period later at equity 10000. -/
theorem close_phase_pnl_amended_witness :
    closeStep c1cfg 28800 (10000, [], []) posW =
      (10000 + (|posW.entry_spread| * c1cfg.position_size_pct * 10000
              - 2 * c1cfg.exit_cost * c1cfg.position_size_pct * 10000),
       [],
       [] ++ [{ coin := posW.coin, entry := posW.entry_time, exitTime := 28800,
                gross := |posW.entry_spread| * c1cfg.position_size_pct * 10000,
                net := |posW.entry_spread| * c1cfg.position_size_pct * 10000
                       - 2 * c1cfg.exit_cost * c1cfg.position_size_pct * 10000 }]) :=
  close_phase_pnl_amended c1cfg 28800 10000 [] [] posW
    (by norm_num [c1cfg, posW])

/-- C8, counterexample. A run that ends with one still-open position: it is
not force-closed (the reported trade count is 0), and its entry cost stays
deducted from the reported final equity (capital - 1.2), while nothing in
the returned summary accounts for the open position. -/
theorem open_position_silently_dropped :
    (runSim c1cfg [e1]).positions.length = 1 ∧
    (simulate_trading c1cfg [e1]).map SimResult.total_trades = some 0 ∧
    (simulate_trading c1cfg [e1]).map SimResult.final_equity
      = some (c1cfg.capital - 6/5) := by
  refine ⟨?_, ?_, ?_⟩ <;>
    norm_num [simulate_trading, runSim, runFrom, initState, simStep, openPhase, closePhase,
      closeStep, openCond, c1cfg, e1, btc, abs]

/-- C8, amended: in the cross-venue simulator, still-open positions at the
end of the sequence are not force-closed and are excluded from the reported
trade count: total_trades counts exactly the trades closed during event
processing, and trades + still-open positions account for every position
ever opened. -/
theorem trade_count_amended (cfg : SimConfig) (spreads : List SpreadOpportunity)
    (h : cfg.capital ≠ 0) :
    (simulate_trading cfg spreads).map SimResult.total_trades
        = some (runSim cfg spreads).trades.length ∧
    (runSim cfg spreads).trades.length + (runSim cfg spreads).positions.length
      = openedCount cfg spreads := by
  constructor
  · simp [simulate_trading, h]
  · have h0 : ({ state := initState cfg spreads, entry_costs_total := 0,
                  opened_count := 0 } : RunTotals).state.trades.length
        + ({ state := initState cfg spreads, entry_costs_total := 0,
             opened_count := 0 } : RunTotals).state.positions.length
        = ({ state := initState cfg spreads, entry_costs_total := 0,
             opened_count := 0 } : RunTotals).opened_count := by
      simp [initState]
    have hinv := instr_opened cfg spreads _ h0
    rw [instr_state cfg spreads] at hinv
    unfold openedCount runTotals
    unfold runSim runFrom
    exact hinv

/-- C8, witness at the one-event run that leaves a position open. -/
theorem trade_count_amended_witness :
    (simulate_trading c1cfg [e1]).map SimResult.total_trades
        = some (runSim c1cfg [e1]).trades.length ∧
    (runSim c1cfg [e1]).trades.length + (runSim c1cfg [e1]).positions.length
      = openedCount c1cfg [e1] :=
  trade_count_amended c1cfg [e1] (by norm_num [c1cfg])

/-- C9: the Profitability Aggregator is purely additive and
order-independent — permuting the event sequence leaves every output
(totals, per-instrument rollups, per-month rollups, distribution buckets)
identical, and running it twice on the same sequence trivially yields the
identical AggregateStats since it is a pure function. -/
theorem aggregator_perm_invariant (c : AggConfig) (l l2 : List SpreadOpportunity)
    (h : l.Perm l2) :
    analyze_profitability c l = analyze_profitability c l2 := by
  unfold analyze_profitability
  have hi : aggInit l = aggInit l2 := by unfold aggInit; rw [h.length_eq]
  rw [hi]
  refine congrArg finalizeAvg (h.foldl_eq' ?_ _)
  intro x _ y _ z
  rw [aggStep_eq_applyDelta, aggStep_eq_applyDelta, aggStep_eq_applyDelta,
    aggStep_eq_applyDelta, applyDelta_comm]

/-- C9, witness at a concrete two-event swap. -/
theorem aggregator_perm_invariant_witness :
    analyze_profitability c9cfg [e1, e2] = analyze_profitability c9cfg [e2, e1] :=
  aggregator_perm_invariant c9cfg [e1, e2] [e2, e1] (List.Perm.swap _ _ _)

/-- C10: every event lands in exactly one of the six spread-magnitude
buckets, so the bucket counts sum to total_opportunities (the input length)
for every threshold and cost configuration. -/
theorem bucket_partition (c : AggConfig) (spreads : List SpreadOpportunity) :
    distSum (analyze_profitability c spreads).spread_distribution
      = (analyze_profitability c spreads).total_opportunities := by
  unfold analyze_profitability
  have hfd : ∀ s : AggregateStats, (finalizeAvg s).spread_distribution = s.spread_distribution :=
    fun s => rfl
  have hft : ∀ s : AggregateStats, (finalizeAvg s).total_opportunities = s.total_opportunities :=
    fun s => rfl
  rw [hfd, hft]
  obtain ⟨h1, h2⟩ := foldl_dist c spreads (aggInit spreads)
  rw [h1, h2]
  simp [aggInit, distSum]
